import Mathlib

/-!
# Verification of `circuits/eval_sae_as_classifier.py`

A shallow embedding of the statistics-aggregation pipeline of
`src/circuits/eval_sae_as_classifier.py` (functions `initialize_results_dict`,
`aggregate_batch_statistics`, `aggregate_statistics`), together with theorems
settling the specification's claims about it.

Modelling conventions:
* Tensors are total functions from natural-number indices to rationals
  (`ℚ` stands in for the floating-point values; all the claimed identities
  are exact over the rationals).  A tensor of shape `(T, F, ...)` becomes a
  function `ℕ → ℕ → ... → ℚ`; claims quantify over in-range indices.
* The result accumulator for one attribute function (`results[name]` in the
  source, holding the `"on"`, `"off"`, `"on_count"`, `"off_count"` tensors)
  becomes the structure `Tracker`.  The source's in-place `+=` updates are
  modelled as a functional record update returning the new accumulator.
* `aggregate_batch_statistics` in the source loops over `custom_functions`,
  updating each function's four tensors from that function's own board
  tensor, independently of the other functions; we model the update applied
  to one attribute function's tracker.
* Sums over the batch and sequence axes are `Finset.range` sums.
-/

open Finset

/-- `results[name]` for one attribute function: the four accumulator tensors
`on` / `off` (indexed threshold, feature, row, col, class) and
`on_count` / `off_count` (indexed threshold, feature). -/
structure Tracker where
  on_tracker : ℕ → ℕ → ℕ → ℕ → ℕ → ℚ
  off_tracker : ℕ → ℕ → ℕ → ℕ → ℕ → ℚ
  on_count : ℕ → ℕ → ℚ
  off_count : ℕ → ℕ → ℚ

@[ext] theorem Tracker.ext_of (a b : Tracker)
    (hon : a.on_tracker = b.on_tracker) (hoff : a.off_tracker = b.off_tracker)
    (honc : a.on_count = b.on_count) (hoffc : a.off_count = b.off_count) :
    a = b := by
  cases a; cases b; simp_all

/-- The zero-initialized accumulator (`torch.zeros` in
`initialize_results_dict`). -/
def zeroTracker : Tracker :=
  ⟨fun _ _ _ _ _ => 0, fun _ _ _ _ _ => 0, fun _ _ => 0, fun _ _ => 0⟩

/-- Line 89: `active_indices_TFBL = activations_FBL > thresholds_T111`.
The broadcast compares the activation of (local) feature `f` at batch row `b`,
position `l` against threshold number `t`: active iff strictly greater. -/
def isActive (acts : ℕ → ℕ → ℕ → ℚ) (thr : ℕ → ℚ) (t f b l : ℕ) : Bool :=
  decide (thr t < acts f b l)

/-- A boolean used as the 0/1 factor it becomes under tensor multiplication. -/
def indicatorQ (b : Bool) : ℚ := if b then 1 else 0

/-- Line 91: `active_counts_TF = einops.reduce(active_indices_TFBL, "T F B L -> T F", "sum")`. -/
def active_counts (acts : ℕ → ℕ → ℕ → ℚ) (thr : ℕ → ℚ) (B L t f : ℕ) : ℚ :=
  ∑ b ∈ range B, ∑ l ∈ range L, indicatorQ (isActive acts thr t f b l)

/-- Line 92: `off_counts_TF = einops.reduce(~active_indices_TFBL, "T F B L -> T F", "sum")`. -/
def off_counts (acts : ℕ → ℕ → ℕ → ℚ) (thr : ℕ → ℚ) (B L t f : ℕ) : ℚ :=
  ∑ b ∈ range B, ∑ l ∈ range L, indicatorQ (!(isActive acts thr t f b l))

/-- Lines 99-110: the board tensor broadcast over thresholds and features,
multiplied by the active indicator and summed over batch and position. -/
def active_boards_sum (acts : ℕ → ℕ → ℕ → ℚ) (thr : ℕ → ℚ)
    (boards : ℕ → ℕ → ℕ → ℕ → ℕ → ℚ) (B L t f r1 r2 c : ℕ) : ℚ :=
  ∑ b ∈ range B, ∑ l ∈ range L,
    boards b l r1 r2 c * indicatorQ (isActive acts thr t f b l)

/-- Lines 111-115: like `active_boards_sum` but weighted by the negated
indicator. -/
def off_boards_sum (acts : ℕ → ℕ → ℕ → ℚ) (thr : ℕ → ℚ)
    (boards : ℕ → ℕ → ℕ → ℕ → ℕ → ℚ) (B L t f r1 r2 c : ℕ) : ℚ :=
  ∑ b ∈ range B, ∑ l ∈ range L,
    boards b l r1 r2 c * indicatorQ (!(isActive acts thr t f b l))

/-- `tensor[:, f_start:f_end] += delta` for a (threshold, feature)-indexed
tensor: global feature index `g` inside the slice receives `delta` at local
index `g - f_start`; indices outside the slice are untouched. -/
def sliceAdd2 (base : ℕ → ℕ → ℚ) (f_start f_end : ℕ)
    (delta : ℕ → ℕ → ℚ) : ℕ → ℕ → ℚ :=
  fun t g => if f_start ≤ g ∧ g < f_end then base t g + delta t (g - f_start) else base t g

/-- `tensor[:, f_start:f_end, :, :, :] += delta` for a 5-D accumulator. -/
def sliceAdd5 (base : ℕ → ℕ → ℕ → ℕ → ℕ → ℚ) (f_start f_end : ℕ)
    (delta : ℕ → ℕ → ℕ → ℕ → ℕ → ℚ) : ℕ → ℕ → ℕ → ℕ → ℕ → ℚ :=
  fun t g r1 r2 c =>
    if f_start ≤ g ∧ g < f_end then base t g r1 r2 c + delta t (g - f_start) r1 r2 c
    else base t g r1 r2 c

/-- Lines 74-126, `aggregate_batch_statistics`, specialised to one attribute
function: compute the gated board sums and activation counts for the current
feature sub-batch and add them into the `[:, f_start:f_end, ...]` slice of the
 accumulator tensors (lines 117-124).  `acts` is the activation tensor for
the sub-batch (local feature index), `thr` the threshold grid, `boards` the
attribute function's one-hot board tensor for the input batch. -/
def aggregate_batch_statistics (tr : Tracker) (acts : ℕ → ℕ → ℕ → ℚ)
    (thr : ℕ → ℚ) (boards : ℕ → ℕ → ℕ → ℕ → ℕ → ℚ)
    (B L f_start f_end : ℕ) : Tracker where
  on_tracker := sliceAdd5 tr.on_tracker f_start f_end (active_boards_sum acts thr boards B L)
  off_tracker := sliceAdd5 tr.off_tracker f_start f_end (off_boards_sum acts thr boards B L)
  on_count := sliceAdd2 tr.on_count f_start f_end (active_counts acts thr B L)
  off_count := sliceAdd2 tr.off_count f_start f_end (off_counts acts thr B L)

/-- One call to `aggregate_batch_statistics`: the per-call inputs (activation
tensor, board tensor, batch and sequence sizes, feature slice bounds). -/
structure BatchCall where
  acts : ℕ → ℕ → ℕ → ℚ
  boards : ℕ → ℕ → ℕ → ℕ → ℕ → ℚ
  B : ℕ
  L : ℕ
  f_start : ℕ
  f_end : ℕ

/-- Fold a sequence of `aggregate_batch_statistics` calls (all sharing the
run's threshold grid) over an accumulator, as the driver's nested loops do. -/
def runCalls (thr : ℕ → ℚ) (calls : List BatchCall) (tr : Tracker) : Tracker :=
  calls.foldl
    (fun acc c =>
      aggregate_batch_statistics acc c.acts thr c.boards c.B c.L c.f_start c.f_end)
    tr

/-- Whether a call's feature slice `[f_start, f_end)` covers global feature `g`. -/
def covers (c : BatchCall) (g : ℕ) : Bool := c.f_start ≤ g && g < c.f_end

/-- Total number of positions (`B * L` summed over the calls covering `g`)
processed for feature `g` by a sequence of calls. -/
def totalPositions (calls : List BatchCall) (g : ℕ) : ℚ :=
  (calls.map (fun c => if covers c g then ((c.B : ℚ) * (c.L : ℚ)) else 0)).sum

-- ### Helper lemmas

theorem indicatorQ_add_not (b : Bool) : indicatorQ b + indicatorQ (!b) = 1 := by
  cases b <;> simp [indicatorQ]

theorem counts_partition (acts : ℕ → ℕ → ℕ → ℚ) (thr : ℕ → ℚ) (B L t f : ℕ) :
    active_counts acts thr B L t f + off_counts acts thr B L t f = (B : ℚ) * (L : ℚ) := by
  unfold active_counts off_counts
  rw [← Finset.sum_add_distrib]
  have h : ∀ b ∈ range B,
      ((∑ l ∈ range L, indicatorQ (isActive acts thr t f b l)) +
        ∑ l ∈ range L, indicatorQ (!(isActive acts thr t f b l))) = (L : ℚ) := by
    intro b _
    rw [← Finset.sum_add_distrib]
    have h2 : ∀ l ∈ range L,
        indicatorQ (isActive acts thr t f b l) +
          indicatorQ (!(isActive acts thr t f b l)) = 1 := fun l _ =>
      indicatorQ_add_not _
    rw [Finset.sum_congr rfl h2]
    simp
  rw [Finset.sum_congr rfl h]
  simp [mul_comm]

theorem single_call_count_sum (tr : Tracker) (acts : ℕ → ℕ → ℕ → ℚ)
    (thr : ℕ → ℚ) (boards : ℕ → ℕ → ℕ → ℕ → ℕ → ℚ) (B L fs fe t g : ℕ) :
    (aggregate_batch_statistics tr acts thr boards B L fs fe).on_count t g +
      (aggregate_batch_statistics tr acts thr boards B L fs fe).off_count t g =
    tr.on_count t g + tr.off_count t g +
      (if fs ≤ g ∧ g < fe then (B : ℚ) * (L : ℚ) else 0) := by
  unfold aggregate_batch_statistics sliceAdd2
  by_cases h : fs ≤ g ∧ g < fe
  · simp only [if_pos h]
    have := counts_partition acts thr B L t (g - fs)
    linarith
  · simp only [if_neg h]
    ring

theorem runCalls_cons (thr : ℕ → ℚ) (c : BatchCall) (rest : List BatchCall)
    (tr : Tracker) :
    runCalls thr (c :: rest) tr =
      runCalls thr rest
        (aggregate_batch_statistics tr c.acts thr c.boards c.B c.L c.f_start c.f_end) := rfl

theorem covers_iff (c : BatchCall) (g : ℕ) :
    covers c g = true ↔ (c.f_start ≤ g ∧ g < c.f_end) := by
  simp [covers]

theorem runCalls_count_sum (thr : ℕ → ℚ) (calls : List BatchCall)
    (tr : Tracker) (t g : ℕ) :
    (runCalls thr calls tr).on_count t g + (runCalls thr calls tr).off_count t g =
      tr.on_count t g + tr.off_count t g + totalPositions calls g := by
  induction calls generalizing tr with
  | nil => simp [runCalls, totalPositions]
  | cons c rest ih =>
    rw [runCalls_cons, ih, single_call_count_sum]
    have hcov : (if covers c g then ((c.B : ℚ) * (c.L : ℚ)) else 0) =
        (if c.f_start ≤ g ∧ g < c.f_end then ((c.B : ℚ) * (c.L : ℚ)) else 0) := by
      by_cases h : c.f_start ≤ g ∧ g < c.f_end
      · rw [if_pos ((covers_iff c g).mpr h), if_pos h]
      · rw [if_neg, if_neg h]
        simp only [covers_iff]
        exact h
    simp only [totalPositions, List.map_cons, List.sum_cons] at *
    rw [← hcov]
    ring

/-- **C1** (count conservation): starting from the zero accumulator, after any
sequence of `aggregate_batch_statistics` calls, for every threshold `t` and
feature `g`, `on_count[t,g] + off_count[t,g]` equals the total number of
positions `B * L` summed over the calls whose feature slice covers `g`; in
particular each single call adds exactly `B * L` to the sum for every feature
in its sub-batch range. -/
theorem C1_count_conservation (thr : ℕ → ℚ) (calls : List BatchCall) (t g : ℕ) :
    (runCalls thr calls zeroTracker).on_count t g +
      (runCalls thr calls zeroTracker).off_count t g = totalPositions calls g := by
  rw [runCalls_count_sum]
  simp [zeroTracker]

/-- **C7** (activation gate semantics): inside the updated slice, the
`on_count` increment counts exactly the positions whose activation is
*strictly greater* than the threshold, and the `off_count` increment counts
exactly the positions whose activation is *less than or equal* to the
threshold — so an activation exactly equal to a threshold contributes to
`off_count`, not `on_count`. -/
theorem C7_activation_gate (tr : Tracker) (acts : ℕ → ℕ → ℕ → ℚ)
    (thr : ℕ → ℚ) (boards : ℕ → ℕ → ℕ → ℕ → ℕ → ℚ) (B L fs fe t g : ℕ)
    (h1 : fs ≤ g) (h2 : g < fe) :
    ((aggregate_batch_statistics tr acts thr boards B L fs fe).on_count t g =
      tr.on_count t g + ∑ b ∈ range B, ∑ l ∈ range L,
        (if thr t < acts (g - fs) b l then (1 : ℚ) else 0)) ∧
    ((aggregate_batch_statistics tr acts thr boards B L fs fe).off_count t g =
      tr.off_count t g + ∑ b ∈ range B, ∑ l ∈ range L,
        (if acts (g - fs) b l ≤ thr t then (1 : ℚ) else 0)) := by
  simp only [aggregate_batch_statistics, sliceAdd2, active_counts, off_counts]
  rw [if_pos ⟨h1, h2⟩, if_pos ⟨h1, h2⟩]
  constructor
  · congr 1
    refine Finset.sum_congr rfl fun b _ => Finset.sum_congr rfl fun l _ => ?_
    simp [indicatorQ, isActive]
  · congr 1
    refine Finset.sum_congr rfl fun b _ => Finset.sum_congr rfl fun l _ => ?_
    simp [indicatorQ, isActive, not_lt]

theorem C7_activation_gate_witness :
    (0 ≤ 0 ∧ 0 < 1) ∧
    ((aggregate_batch_statistics zeroTracker (fun _ _ _ => (1 : ℚ) / 2)
        (fun _ => (1 : ℚ) / 2) (fun _ _ _ _ _ => 1) 1 1 0 1).on_count 0 0 =
      zeroTracker.on_count 0 0 + ∑ b ∈ range 1, ∑ l ∈ range 1,
        (if ((1 : ℚ) / 2) < (1 : ℚ) / 2 then (1 : ℚ) else 0)) ∧
    ((aggregate_batch_statistics zeroTracker (fun _ _ _ => (1 : ℚ) / 2)
        (fun _ => (1 : ℚ) / 2) (fun _ _ _ _ _ => 1) 1 1 0 1).off_count 0 0 =
      zeroTracker.off_count 0 0 + ∑ b ∈ range 1, ∑ l ∈ range 1,
        (if ((1 : ℚ) / 2) ≤ (1 : ℚ) / 2 then (1 : ℚ) else 0)) :=
  ⟨⟨by decide, by decide⟩,
    C7_activation_gate zeroTracker (fun _ _ _ => (1 : ℚ) / 2)
      (fun _ => (1 : ℚ) / 2) (fun _ _ _ _ _ => 1) 1 1 0 1 0 0
      (by decide) (by decide)⟩

/-- **C9** (frame condition): a call to `aggregate_batch_statistics` with
feature slice `[f_start, f_end)` leaves every accumulator entry whose global
feature index lies outside the slice unchanged, in all four tensors. -/
theorem C9_frame_condition (tr : Tracker) (acts : ℕ → ℕ → ℕ → ℚ)
    (thr : ℕ → ℚ) (boards : ℕ → ℕ → ℕ → ℕ → ℕ → ℚ)
    (B L fs fe t g r1 r2 c : ℕ) (h : g < fs ∨ fe ≤ g) :
    ((aggregate_batch_statistics tr acts thr boards B L fs fe).on_tracker t g r1 r2 c =
        tr.on_tracker t g r1 r2 c) ∧
    ((aggregate_batch_statistics tr acts thr boards B L fs fe).off_tracker t g r1 r2 c =
        tr.off_tracker t g r1 r2 c) ∧
    ((aggregate_batch_statistics tr acts thr boards B L fs fe).on_count t g =
        tr.on_count t g) ∧
    ((aggregate_batch_statistics tr acts thr boards B L fs fe).off_count t g =
        tr.off_count t g) := by
  have hn : ¬ (fs ≤ g ∧ g < fe) := by omega
  simp only [aggregate_batch_statistics, sliceAdd2, sliceAdd5]
  rw [if_neg hn, if_neg hn, if_neg hn, if_neg hn]
  exact ⟨rfl, rfl, rfl, rfl⟩

theorem C9_frame_condition_witness :
    ((5 : ℕ) < 7 ∨ (9 : ℕ) ≤ 5) ∧
    (((aggregate_batch_statistics zeroTracker (fun _ _ _ => 1) (fun _ => 0)
        (fun _ _ _ _ _ => 1) 2 3 7 9).on_tracker 0 5 0 0 0 =
        zeroTracker.on_tracker 0 5 0 0 0) ∧
      ((aggregate_batch_statistics zeroTracker (fun _ _ _ => 1) (fun _ => 0)
        (fun _ _ _ _ _ => 1) 2 3 7 9).off_tracker 0 5 0 0 0 =
        zeroTracker.off_tracker 0 5 0 0 0) ∧
      ((aggregate_batch_statistics zeroTracker (fun _ _ _ => 1) (fun _ => 0)
        (fun _ _ _ _ _ => 1) 2 3 7 9).on_count 0 5 = zeroTracker.on_count 0 5) ∧
      ((aggregate_batch_statistics zeroTracker (fun _ _ _ => 1) (fun _ => 0)
        (fun _ _ _ _ _ => 1) 2 3 7 9).off_count 0 5 = zeroTracker.off_count 0 5)) :=
  ⟨Or.inl (by decide),
    C9_frame_condition zeroTracker (fun _ _ _ => 1) (fun _ => 0)
      (fun _ _ _ _ _ => 1) 2 3 7 9 0 5 0 0 0 (Or.inl (by decide))⟩

/-- Lines 165-167: `thresholds_T111 = torch.arange(0.0, 1.0, 0.1)`: threshold
number `i` of the run's grid has value `i / 10` (exact rationals stand in for
the float grid; the grid is strictly increasing either way). -/
def thresholds_T111 : ℕ → ℚ := fun i => (i : ℚ) / 10

theorem thresholds_strictMono (i j : ℕ) (h : i < j) :
    thresholds_T111 i < thresholds_T111 j := by
  unfold thresholds_T111
  have : (i : ℚ) < (j : ℚ) := by exact_mod_cast h
  linarith

theorem active_counts_antitone (acts : ℕ → ℕ → ℕ → ℚ) (thr : ℕ → ℚ)
    (B L t1 t2 f : ℕ) (h : thr t1 ≤ thr t2) :
    active_counts acts thr B L t2 f ≤ active_counts acts thr B L t1 f := by
  refine Finset.sum_le_sum fun b _ => Finset.sum_le_sum fun l _ => ?_
  by_cases h2 : thr t2 < acts f b l
  · have h1' : thr t1 < acts f b l := lt_of_le_of_lt h h2
    simp [indicatorQ, isActive, h1', h2]
  · by_cases h1' : thr t1 < acts f b l <;> simp [indicatorQ, isActive, h1', h2]

theorem runCalls_on_count_antitone (thr : ℕ → ℚ) (t1 t2 : ℕ)
    (hmono : thr t1 ≤ thr t2) (calls : List BatchCall) (tr : Tracker) (g : ℕ)
    (hbase : tr.on_count t2 g ≤ tr.on_count t1 g) :
    (runCalls thr calls tr).on_count t2 g ≤ (runCalls thr calls tr).on_count t1 g := by
  induction calls generalizing tr with
  | nil => exact hbase
  | cons c rest ih =>
    rw [runCalls_cons]
    refine ih _ ?_
    simp only [aggregate_batch_statistics, sliceAdd2]
    by_cases h : c.f_start ≤ g ∧ g < c.f_end
    · rw [if_pos h, if_pos h]
      exact add_le_add hbase
        (active_counts_antitone c.acts thr c.B c.L t1 t2 (g - c.f_start) hmono)
    · rw [if_neg h, if_neg h]
      exact hbase

/-- **C5** (threshold monotonicity): over the run's threshold grid
`thresholds_T111`, for grid indices `t1 < t2`, every feature `g`, and every
accumulator reached from the zero state by `aggregate_batch_statistics`
updates, `on_count[t1,g] ≥ on_count[t2,g]`. -/
theorem C5_threshold_monotonicity (calls : List BatchCall) (t1 t2 g : ℕ)
    (h : t1 < t2) :
    (runCalls thresholds_T111 calls zeroTracker).on_count t1 g ≥
      (runCalls thresholds_T111 calls zeroTracker).on_count t2 g :=
  runCalls_on_count_antitone thresholds_T111 t1 t2
    (le_of_lt (thresholds_strictMono t1 t2 h)) calls zeroTracker g (le_refl 0)

theorem C5_threshold_monotonicity_witness :
    0 < 1 ∧
    (runCalls thresholds_T111
        [⟨fun _ _ _ => (1 : ℚ) / 20, fun _ _ _ _ _ => 1, 1, 1, 0, 1⟩]
        zeroTracker).on_count 0 0 ≥
      (runCalls thresholds_T111
        [⟨fun _ _ _ => (1 : ℚ) / 20, fun _ _ _ _ _ => 1, 1, 1, 0, 1⟩]
        zeroTracker).on_count 1 0 :=
  ⟨by decide,
    C5_threshold_monotonicity
      [⟨fun _ _ _ => (1 : ℚ) / 20, fun _ _ _ _ _ => 1, 1, 1, 0, 1⟩] 0 1 0
      (by decide)⟩

theorem sliceAdd2_batch_split (base : ℕ → ℕ → ℚ) (fs fe : ℕ)
    (d1 d2 d : ℕ → ℕ → ℚ) (h : ∀ t f, d t f = d1 t f + d2 t f) :
    sliceAdd2 (sliceAdd2 base fs fe d1) fs fe d2 = sliceAdd2 base fs fe d := by
  funext t g
  unfold sliceAdd2
  by_cases hg : fs ≤ g ∧ g < fe
  · rw [if_pos hg, if_pos hg, if_pos hg, h]
    ring
  · rw [if_neg hg, if_neg hg, if_neg hg]

theorem sliceAdd5_batch_split (base : ℕ → ℕ → ℕ → ℕ → ℕ → ℚ) (fs fe : ℕ)
    (d1 d2 d : ℕ → ℕ → ℕ → ℕ → ℕ → ℚ)
    (h : ∀ t f r1 r2 c, d t f r1 r2 c = d1 t f r1 r2 c + d2 t f r1 r2 c) :
    sliceAdd5 (sliceAdd5 base fs fe d1) fs fe d2 = sliceAdd5 base fs fe d := by
  funext t g r1 r2 c
  unfold sliceAdd5
  by_cases hg : fs ≤ g ∧ g < fe
  · rw [if_pos hg, if_pos hg, if_pos hg, h]
    ring
  · rw [if_neg hg, if_neg hg, if_neg hg]

theorem sliceAdd2_feature_split (base : ℕ → ℕ → ℚ) (fs fm fe : ℕ)
    (h1 : fs ≤ fm) (h2 : fm ≤ fe) (d d2 : ℕ → ℕ → ℚ)
    (hd2 : ∀ t g, fm ≤ g → g < fe → d2 t (g - fm) = d t (g - fs)) :
    sliceAdd2 (sliceAdd2 base fs fm d) fm fe d2 = sliceAdd2 base fs fe d := by
  funext t g
  unfold sliceAdd2
  by_cases hA : fs ≤ g ∧ g < fm
  · have hB : ¬ (fm ≤ g ∧ g < fe) := by omega
    have hC : fs ≤ g ∧ g < fe := by omega
    rw [if_neg hB, if_pos hA, if_pos hC]
  · by_cases hB : fm ≤ g ∧ g < fe
    · have hC : fs ≤ g ∧ g < fe := by omega
      rw [if_pos hB, if_neg hA, if_pos hC, hd2 t g hB.1 hB.2]
    · have hC : ¬ (fs ≤ g ∧ g < fe) := by omega
      rw [if_neg hB, if_neg hA, if_neg hC]

theorem sliceAdd5_feature_split (base : ℕ → ℕ → ℕ → ℕ → ℕ → ℚ) (fs fm fe : ℕ)
    (h1 : fs ≤ fm) (h2 : fm ≤ fe) (d d2 : ℕ → ℕ → ℕ → ℕ → ℕ → ℚ)
    (hd2 : ∀ t g r1 r2 c, fm ≤ g → g < fe →
      d2 t (g - fm) r1 r2 c = d t (g - fs) r1 r2 c) :
    sliceAdd5 (sliceAdd5 base fs fm d) fm fe d2 = sliceAdd5 base fs fe d := by
  funext t g r1 r2 c
  unfold sliceAdd5
  by_cases hA : fs ≤ g ∧ g < fm
  · have hB : ¬ (fm ≤ g ∧ g < fe) := by omega
    have hC : fs ≤ g ∧ g < fe := by omega
    rw [if_neg hB, if_pos hA, if_pos hC]
  · by_cases hB : fm ≤ g ∧ g < fe
    · have hC : fs ≤ g ∧ g < fe := by omega
      rw [if_pos hB, if_neg hA, if_pos hC, hd2 t g r1 r2 c hB.1 hB.2]
    · have hC : ¬ (fs ≤ g ∧ g < fe) := by omega
      rw [if_neg hB, if_neg hA, if_neg hC]

theorem active_counts_batch_split (acts : ℕ → ℕ → ℕ → ℚ) (thr : ℕ → ℚ)
    (B1 B2 L t f : ℕ) :
    active_counts acts thr (B1 + B2) L t f =
      active_counts acts thr B1 L t f +
        active_counts (fun f b l => acts f (B1 + b) l) thr B2 L t f := by
  simp only [active_counts, isActive]
  exact Finset.sum_range_add
    (fun b => ∑ l ∈ range L, indicatorQ (decide (thr t < acts f b l))) B1 B2

theorem off_counts_batch_split (acts : ℕ → ℕ → ℕ → ℚ) (thr : ℕ → ℚ)
    (B1 B2 L t f : ℕ) :
    off_counts acts thr (B1 + B2) L t f =
      off_counts acts thr B1 L t f +
        off_counts (fun f b l => acts f (B1 + b) l) thr B2 L t f := by
  simp only [off_counts, isActive]
  exact Finset.sum_range_add
    (fun b => ∑ l ∈ range L, indicatorQ (!(decide (thr t < acts f b l)))) B1 B2

theorem active_boards_sum_batch_split (acts : ℕ → ℕ → ℕ → ℚ) (thr : ℕ → ℚ)
    (boards : ℕ → ℕ → ℕ → ℕ → ℕ → ℚ) (B1 B2 L t f r1 r2 c : ℕ) :
    active_boards_sum acts thr boards (B1 + B2) L t f r1 r2 c =
      active_boards_sum acts thr boards B1 L t f r1 r2 c +
        active_boards_sum (fun f b l => acts f (B1 + b) l) thr
          (fun b l r1 r2 c => boards (B1 + b) l r1 r2 c) B2 L t f r1 r2 c := by
  simp only [active_boards_sum, isActive]
  exact Finset.sum_range_add
    (fun b => ∑ l ∈ range L,
      boards b l r1 r2 c * indicatorQ (decide (thr t < acts f b l))) B1 B2

theorem off_boards_sum_batch_split (acts : ℕ → ℕ → ℕ → ℚ) (thr : ℕ → ℚ)
    (boards : ℕ → ℕ → ℕ → ℕ → ℕ → ℚ) (B1 B2 L t f r1 r2 c : ℕ) :
    off_boards_sum acts thr boards (B1 + B2) L t f r1 r2 c =
      off_boards_sum acts thr boards B1 L t f r1 r2 c +
        off_boards_sum (fun f b l => acts f (B1 + b) l) thr
          (fun b l r1 r2 c => boards (B1 + b) l r1 r2 c) B2 L t f r1 r2 c := by
  simp only [off_boards_sum, isActive]
  exact Finset.sum_range_add
    (fun b => ∑ l ∈ range L,
      boards b l r1 r2 c * indicatorQ (!(decide (thr t < acts f b l)))) B1 B2

theorem aggregate_batch_split (tr : Tracker) (acts : ℕ → ℕ → ℕ → ℚ)
    (thr : ℕ → ℚ) (boards : ℕ → ℕ → ℕ → ℕ → ℕ → ℚ) (B1 B2 L fs fe : ℕ) :
    aggregate_batch_statistics
        (aggregate_batch_statistics tr acts thr boards B1 L fs fe)
        (fun f b l => acts f (B1 + b) l) thr
        (fun b l r1 r2 c => boards (B1 + b) l r1 r2 c) B2 L fs fe =
      aggregate_batch_statistics tr acts thr boards (B1 + B2) L fs fe := by
  unfold aggregate_batch_statistics
  refine Tracker.ext_of _ _ ?_ ?_ ?_ ?_
  · exact sliceAdd5_batch_split _ fs fe _ _ _
      (fun t f r1 r2 c => active_boards_sum_batch_split acts thr boards B1 B2 L t f r1 r2 c)
  · exact sliceAdd5_batch_split _ fs fe _ _ _
      (fun t f r1 r2 c => off_boards_sum_batch_split acts thr boards B1 B2 L t f r1 r2 c)
  · exact sliceAdd2_batch_split _ fs fe _ _ _
      (fun t f => active_counts_batch_split acts thr B1 B2 L t f)
  · exact sliceAdd2_batch_split _ fs fe _ _ _
      (fun t f => off_counts_batch_split acts thr B1 B2 L t f)

theorem active_counts_shift (acts : ℕ → ℕ → ℕ → ℚ) (thr : ℕ → ℚ)
    (B L fs fm t g : ℕ) (h1 : fs ≤ fm) (hg : fm ≤ g) :
    active_counts (fun f => acts (f + (fm - fs))) thr B L t (g - fm) =
      active_counts acts thr B L t (g - fs) := by
  have hidx : (g - fm) + (fm - fs) = g - fs := by omega
  simp only [active_counts, isActive, hidx]

theorem off_counts_shift (acts : ℕ → ℕ → ℕ → ℚ) (thr : ℕ → ℚ)
    (B L fs fm t g : ℕ) (h1 : fs ≤ fm) (hg : fm ≤ g) :
    off_counts (fun f => acts (f + (fm - fs))) thr B L t (g - fm) =
      off_counts acts thr B L t (g - fs) := by
  have hidx : (g - fm) + (fm - fs) = g - fs := by omega
  simp only [off_counts, isActive, hidx]

theorem active_boards_sum_shift (acts : ℕ → ℕ → ℕ → ℚ) (thr : ℕ → ℚ)
    (boards : ℕ → ℕ → ℕ → ℕ → ℕ → ℚ) (B L fs fm t g r1 r2 c : ℕ)
    (h1 : fs ≤ fm) (hg : fm ≤ g) :
    active_boards_sum (fun f => acts (f + (fm - fs))) thr boards B L t (g - fm) r1 r2 c =
      active_boards_sum acts thr boards B L t (g - fs) r1 r2 c := by
  have hidx : (g - fm) + (fm - fs) = g - fs := by omega
  simp only [active_boards_sum, isActive, hidx]

theorem off_boards_sum_shift (acts : ℕ → ℕ → ℕ → ℚ) (thr : ℕ → ℚ)
    (boards : ℕ → ℕ → ℕ → ℕ → ℕ → ℚ) (B L fs fm t g r1 r2 c : ℕ)
    (h1 : fs ≤ fm) (hg : fm ≤ g) :
    off_boards_sum (fun f => acts (f + (fm - fs))) thr boards B L t (g - fm) r1 r2 c =
      off_boards_sum acts thr boards B L t (g - fs) r1 r2 c := by
  have hidx : (g - fm) + (fm - fs) = g - fs := by omega
  simp only [off_boards_sum, isActive, hidx]

theorem aggregate_feature_split (tr : Tracker) (acts : ℕ → ℕ → ℕ → ℚ)
    (thr : ℕ → ℚ) (boards : ℕ → ℕ → ℕ → ℕ → ℕ → ℚ) (B L fs fm fe : ℕ)
    (h1 : fs ≤ fm) (h2 : fm ≤ fe) :
    aggregate_batch_statistics
        (aggregate_batch_statistics tr acts thr boards B L fs fm)
        (fun f => acts (f + (fm - fs))) thr boards B L fm fe =
      aggregate_batch_statistics tr acts thr boards B L fs fe := by
  unfold aggregate_batch_statistics
  refine Tracker.ext_of _ _ ?_ ?_ ?_ ?_
  · exact sliceAdd5_feature_split _ fs fm fe h1 h2 _ _
      (fun t g r1 r2 c hg _ => active_boards_sum_shift acts thr boards B L fs fm t g r1 r2 c h1 hg)
  · exact sliceAdd5_feature_split _ fs fm fe h1 h2 _ _
      (fun t g r1 r2 c hg _ => off_boards_sum_shift acts thr boards B L fs fm t g r1 r2 c h1 hg)
  · exact sliceAdd2_feature_split _ fs fm fe h1 h2 _ _
      (fun t g hg _ => active_counts_shift acts thr B L fs fm t g h1 hg)
  · exact sliceAdd2_feature_split _ fs fm fe h1 h2 _ _
      (fun t g hg _ => off_counts_shift acts thr B L fs fm t g h1 hg)

theorem aggregate_commute (tr : Tracker) (thr : ℕ → ℚ) (c1 c2 : BatchCall) :
    aggregate_batch_statistics
        (aggregate_batch_statistics tr c1.acts thr c1.boards c1.B c1.L c1.f_start c1.f_end)
        c2.acts thr c2.boards c2.B c2.L c2.f_start c2.f_end =
      aggregate_batch_statistics
        (aggregate_batch_statistics tr c2.acts thr c2.boards c2.B c2.L c2.f_start c2.f_end)
        c1.acts thr c1.boards c1.B c1.L c1.f_start c1.f_end := by
  unfold aggregate_batch_statistics
  refine Tracker.ext_of _ _ ?_ ?_ ?_ ?_
  · funext t g r1 r2 c
    unfold sliceAdd5
    by_cases hA : c1.f_start ≤ g ∧ g < c1.f_end <;>
      by_cases hB : c2.f_start ≤ g ∧ g < c2.f_end <;>
        simp only [hA, hB, and_self, if_true, if_false] <;> ring
  · funext t g r1 r2 c
    unfold sliceAdd5
    by_cases hA : c1.f_start ≤ g ∧ g < c1.f_end <;>
      by_cases hB : c2.f_start ≤ g ∧ g < c2.f_end <;>
        simp only [hA, hB, and_self, if_true, if_false] <;> ring
  · funext t g
    unfold sliceAdd2
    by_cases hA : c1.f_start ≤ g ∧ g < c1.f_end <;>
      by_cases hB : c2.f_start ≤ g ∧ g < c2.f_end <;>
        simp only [hA, hB, and_self, if_true, if_false] <;> ring
  · funext t g
    unfold sliceAdd2
    by_cases hA : c1.f_start ≤ g ∧ g < c1.f_end <;>
      by_cases hB : c2.f_start ≤ g ∧ g < c2.f_end <;>
        simp only [hA, hB, and_self, if_true, if_false] <;> ring

/-- **C4** (partition invariance): (1) splitting an input batch along the
batch axis into rows `[0,B1)` and `[B1,B1+B2)` and accumulating each part
separately equals processing the whole batch at once; (2) splitting the
feature range `[fs,fe)` at `fm` and accumulating the two sub-ranges (the
second with the correspondingly shifted activation slice) equals one call on
the whole range; (3) any two `aggregate_batch_statistics` calls commute: the
accumulator state is the same in either order (in particular for calls with
disjoint (batch, feature-range) pairs).  All equalities are exact over the
rationals. -/
theorem C4_partition_invariance (tr : Tracker) (acts : ℕ → ℕ → ℕ → ℚ)
    (thr : ℕ → ℚ) (boards : ℕ → ℕ → ℕ → ℕ → ℕ → ℚ)
    (B1 B2 L fs fm fe : ℕ) (h1 : fs ≤ fm) (h2 : fm ≤ fe) (c1 c2 : BatchCall) :
    (aggregate_batch_statistics
        (aggregate_batch_statistics tr acts thr boards B1 L fs fe)
        (fun f b l => acts f (B1 + b) l) thr
        (fun b l r1 r2 c => boards (B1 + b) l r1 r2 c) B2 L fs fe =
      aggregate_batch_statistics tr acts thr boards (B1 + B2) L fs fe) ∧
    (aggregate_batch_statistics
        (aggregate_batch_statistics tr acts thr boards B1 L fs fm)
        (fun f => acts (f + (fm - fs))) thr boards B1 L fm fe =
      aggregate_batch_statistics tr acts thr boards B1 L fs fe) ∧
    (aggregate_batch_statistics
        (aggregate_batch_statistics tr c1.acts thr c1.boards c1.B c1.L c1.f_start c1.f_end)
        c2.acts thr c2.boards c2.B c2.L c2.f_start c2.f_end =
      aggregate_batch_statistics
        (aggregate_batch_statistics tr c2.acts thr c2.boards c2.B c2.L c2.f_start c2.f_end)
        c1.acts thr c1.boards c1.B c1.L c1.f_start c1.f_end) :=
  ⟨aggregate_batch_split tr acts thr boards B1 B2 L fs fe,
   aggregate_feature_split tr acts thr boards B1 L fs fm fe h1 h2,
   aggregate_commute tr thr c1 c2⟩

theorem C4_partition_invariance_witness :
    ((0 : ℕ) ≤ 1 ∧ (1 : ℕ) ≤ 2) ∧
    (aggregate_batch_statistics
        (aggregate_batch_statistics zeroTracker (fun _ _ _ => 1) thresholds_T111
          (fun _ _ _ _ _ => 1) 1 2 0 2)
        (fun f b l => (fun _ _ _ => (1 : ℚ)) f (1 + b) l) thresholds_T111
        (fun b l r1 r2 c => (fun _ _ _ _ _ => (1 : ℚ)) (1 + b) l r1 r2 c) 1 2 0 2 =
      aggregate_batch_statistics zeroTracker (fun _ _ _ => 1) thresholds_T111
        (fun _ _ _ _ _ => 1) (1 + 1) 2 0 2) ∧
    (aggregate_batch_statistics
        (aggregate_batch_statistics zeroTracker (fun _ _ _ => 1) thresholds_T111
          (fun _ _ _ _ _ => 1) 1 2 0 1)
        (fun f => (fun _ _ _ => (1 : ℚ)) (f + (1 - 0))) thresholds_T111
        (fun _ _ _ _ _ => 1) 1 2 1 2 =
      aggregate_batch_statistics zeroTracker (fun _ _ _ => 1) thresholds_T111
        (fun _ _ _ _ _ => 1) 1 2 0 2) ∧
    (aggregate_batch_statistics
        (aggregate_batch_statistics zeroTracker
          (BatchCall.mk (fun _ _ _ => 1) (fun _ _ _ _ _ => 1) 1 1 0 1).acts thresholds_T111
          (BatchCall.mk (fun _ _ _ => 1) (fun _ _ _ _ _ => 1) 1 1 0 1).boards 1 1 0 1)
        (BatchCall.mk (fun _ _ _ => 0) (fun _ _ _ _ _ => 0) 2 1 1 2).acts thresholds_T111
        (BatchCall.mk (fun _ _ _ => 0) (fun _ _ _ _ _ => 0) 2 1 1 2).boards 2 1 1 2 =
      aggregate_batch_statistics
        (aggregate_batch_statistics zeroTracker
          (BatchCall.mk (fun _ _ _ => 0) (fun _ _ _ _ _ => 0) 2 1 1 2).acts thresholds_T111
          (BatchCall.mk (fun _ _ _ => 0) (fun _ _ _ _ _ => 0) 2 1 1 2).boards 2 1 1 2)
        (BatchCall.mk (fun _ _ _ => 1) (fun _ _ _ _ _ => 1) 1 1 0 1).acts thresholds_T111
        (BatchCall.mk (fun _ _ _ => 1) (fun _ _ _ _ _ => 1) 1 1 0 1).boards 1 1 0 1) :=
  ⟨⟨by decide, by decide⟩,
    C4_partition_invariance zeroTracker (fun _ _ _ => 1) thresholds_T111
      (fun _ _ _ _ _ => 1) 1 1 2 0 1 2 (by decide) (by decide)
      (BatchCall.mk (fun _ _ _ => 1) (fun _ _ _ _ _ => 1) 1 1 0 1)
      (BatchCall.mk (fun _ _ _ => 0) (fun _ _ _ _ _ => 0) 2 1 1 2)⟩

/-- The attribute's board tensor is dense (one-hot) at cell `(r1, r2)` for a
batch of `B` rows and `L` positions: the class entries of every position sum
to exactly 1 over the `C` classes. -/
def denseAt (boards : ℕ → ℕ → ℕ → ℕ → ℕ → ℚ) (B L C r1 r2 : ℕ) : Prop :=
  ∀ b < B, ∀ l < L, ∑ c ∈ range C, boards b l r1 r2 c = 1

/-- The attribute's board tensor is at most one-hot at cell `(r1, r2)`: class
entries are nonnegative and sum to at most 1 per position (all-zero at
positions where the attribute is absent). -/
def subOneHotAt (boards : ℕ → ℕ → ℕ → ℕ → ℕ → ℚ) (B L C r1 r2 : ℕ) : Prop :=
  ∀ b < B, ∀ l < L,
    (∀ c, 0 ≤ boards b l r1 r2 c) ∧ ∑ c ∈ range C, boards b l r1 r2 c ≤ 1

theorem class_sum_active_boards (acts : ℕ → ℕ → ℕ → ℚ) (thr : ℕ → ℚ)
    (boards : ℕ → ℕ → ℕ → ℕ → ℕ → ℚ) (B L C t f r1 r2 : ℕ)
    (h : denseAt boards B L C r1 r2) :
    ∑ c ∈ range C, active_boards_sum acts thr boards B L t f r1 r2 c =
      active_counts acts thr B L t f := by
  unfold active_boards_sum active_counts
  rw [Finset.sum_comm]
  refine Finset.sum_congr rfl fun b hb => ?_
  rw [Finset.sum_comm]
  refine Finset.sum_congr rfl fun l hl => ?_
  rw [← Finset.sum_mul, h b (mem_range.mp hb) l (mem_range.mp hl), one_mul]

theorem class_sum_active_boards_le (acts : ℕ → ℕ → ℕ → ℚ) (thr : ℕ → ℚ)
    (boards : ℕ → ℕ → ℕ → ℕ → ℕ → ℚ) (B L C t f r1 r2 : ℕ)
    (h : subOneHotAt boards B L C r1 r2) :
    ∑ c ∈ range C, active_boards_sum acts thr boards B L t f r1 r2 c ≤
      active_counts acts thr B L t f := by
  unfold active_boards_sum active_counts
  rw [Finset.sum_comm]
  refine Finset.sum_le_sum fun b hb => ?_
  rw [Finset.sum_comm]
  refine Finset.sum_le_sum fun l hl => ?_
  rw [← Finset.sum_mul]
  obtain ⟨hpos, hsum⟩ := h b (mem_range.mp hb) l (mem_range.mp hl)
  cases hact : isActive acts thr t f b l with
  | false => simp [indicatorQ, hact]
  | true => simpa [indicatorQ, hact] using hsum

theorem step_class_sum_eq (tr : Tracker) (acts : ℕ → ℕ → ℕ → ℚ)
    (thr : ℕ → ℚ) (boards : ℕ → ℕ → ℕ → ℕ → ℕ → ℚ) (B L fs fe C t g r1 r2 : ℕ)
    (hb : ∑ c ∈ range C, tr.on_tracker t g r1 r2 c = tr.on_count t g)
    (h : denseAt boards B L C r1 r2) :
    ∑ c ∈ range C,
        (aggregate_batch_statistics tr acts thr boards B L fs fe).on_tracker t g r1 r2 c =
      (aggregate_batch_statistics tr acts thr boards B L fs fe).on_count t g := by
  simp only [aggregate_batch_statistics, sliceAdd5, sliceAdd2]
  by_cases hg : fs ≤ g ∧ g < fe
  · simp only [if_pos hg]
    rw [Finset.sum_add_distrib, hb,
      class_sum_active_boards acts thr boards B L C t (g - fs) r1 r2 h]
  · simp only [if_neg hg]
    exact hb

theorem step_class_sum_le (tr : Tracker) (acts : ℕ → ℕ → ℕ → ℚ)
    (thr : ℕ → ℚ) (boards : ℕ → ℕ → ℕ → ℕ → ℕ → ℚ) (B L fs fe C t g r1 r2 : ℕ)
    (hb : ∑ c ∈ range C, tr.on_tracker t g r1 r2 c ≤ tr.on_count t g)
    (h : subOneHotAt boards B L C r1 r2) :
    ∑ c ∈ range C,
        (aggregate_batch_statistics tr acts thr boards B L fs fe).on_tracker t g r1 r2 c ≤
      (aggregate_batch_statistics tr acts thr boards B L fs fe).on_count t g := by
  simp only [aggregate_batch_statistics, sliceAdd5, sliceAdd2]
  by_cases hg : fs ≤ g ∧ g < fe
  · simp only [if_pos hg]
    rw [Finset.sum_add_distrib]
    exact add_le_add hb
      (class_sum_active_boards_le acts thr boards B L C t (g - fs) r1 r2 h)
  · simp only [if_neg hg]
    exact hb

theorem runCalls_class_sum_eq (thr : ℕ → ℚ) (calls : List BatchCall)
    (C t g r1 r2 : ℕ) (tr : Tracker)
    (hb : ∑ c ∈ range C, tr.on_tracker t g r1 r2 c = tr.on_count t g)
    (h : ∀ call ∈ calls, denseAt call.boards call.B call.L C r1 r2) :
    ∑ c ∈ range C, (runCalls thr calls tr).on_tracker t g r1 r2 c =
      (runCalls thr calls tr).on_count t g := by
  induction calls generalizing tr with
  | nil => exact hb
  | cons c0 rest ih =>
    rw [runCalls_cons]
    exact ih _
      (step_class_sum_eq tr c0.acts thr c0.boards c0.B c0.L c0.f_start c0.f_end
        C t g r1 r2 hb (h c0 (List.mem_cons_self c0 rest)))
      (fun call hc => h call (List.mem_cons_of_mem c0 hc))

theorem runCalls_class_sum_le (thr : ℕ → ℚ) (calls : List BatchCall)
    (C t g r1 r2 : ℕ) (tr : Tracker)
    (hb : ∑ c ∈ range C, tr.on_tracker t g r1 r2 c ≤ tr.on_count t g)
    (h : ∀ call ∈ calls, subOneHotAt call.boards call.B call.L C r1 r2) :
    ∑ c ∈ range C, (runCalls thr calls tr).on_tracker t g r1 r2 c ≤
      (runCalls thr calls tr).on_count t g := by
  induction calls generalizing tr with
  | nil => exact hb
  | cons c0 rest ih =>
    rw [runCalls_cons]
    exact ih _
      (step_class_sum_le tr c0.acts thr c0.boards c0.B c0.L c0.f_start c0.f_end
        C t g r1 r2 hb (h c0 (List.mem_cons_self c0 rest)))
      (fun call hc => h call (List.mem_cons_of_mem c0 hc))

/-- **C6** (sum conservation): starting from the zero accumulator, for every
threshold `t`, feature `g` and board cell `(r1, r2)`: if every processed
batch's board tensor is one-hot at every position (class entries summing to
1), the class-axis sum of `on[t,g,r1,r2,:]` equals `on_count[t,g]`; if class
entries are nonnegative and sum to at most 1 (all-zero at some positions),
the class-axis sum is at most `on_count[t,g]`. -/
theorem C6_sum_conservation (thr : ℕ → ℚ) (calls : List BatchCall)
    (C t g r1 r2 : ℕ) :
    ((∀ call ∈ calls, denseAt call.boards call.B call.L C r1 r2) →
      ∑ c ∈ range C, (runCalls thr calls zeroTracker).on_tracker t g r1 r2 c =
        (runCalls thr calls zeroTracker).on_count t g) ∧
    ((∀ call ∈ calls, subOneHotAt call.boards call.B call.L C r1 r2) →
      ∑ c ∈ range C, (runCalls thr calls zeroTracker).on_tracker t g r1 r2 c ≤
        (runCalls thr calls zeroTracker).on_count t g) :=
  ⟨fun h => runCalls_class_sum_eq thr calls C t g r1 r2 zeroTracker (by simp [zeroTracker]) h,
   fun h => runCalls_class_sum_le thr calls C t g r1 r2 zeroTracker (by simp [zeroTracker]) h⟩

theorem C6_sum_conservation_witness :
    (∀ call ∈ [BatchCall.mk (fun _ _ _ => 1) (fun _ _ _ _ _ => 1) 1 1 0 1],
      denseAt call.boards call.B call.L 1 0 0) ∧
    ∑ c ∈ range 1,
        (runCalls thresholds_T111
          [BatchCall.mk (fun _ _ _ => 1) (fun _ _ _ _ _ => 1) 1 1 0 1]
          zeroTracker).on_tracker 0 0 0 0 c =
      (runCalls thresholds_T111
        [BatchCall.mk (fun _ _ _ => 1) (fun _ _ _ _ _ => 1) 1 1 0 1]
        zeroTracker).on_count 0 0 := by
  have hdense : ∀ call ∈ [BatchCall.mk (fun _ _ _ => (1 : ℚ)) (fun _ _ _ _ _ => 1) 1 1 0 1],
      denseAt call.boards call.B call.L 1 0 0 := by
    intro call hc
    rcases List.mem_singleton.mp hc with rfl
    intro b _ l _
    simp [Finset.sum_range_one]
  exact ⟨hdense,
    (C6_sum_conservation thresholds_T111
      [BatchCall.mk (fun _ _ _ => 1) (fun _ _ _ _ _ => 1) 1 1 0 1] 1 0 0 0 0).1 hdense⟩

-- ### The driver `aggregate_statistics` (lines 129-206)

/-- Lines 21-23: the parameter list of `initialize_results_dict` as defined —
three required positional parameters, no defaults. -/
def initialize_results_dict_params : List String :=
  ["custom_functions", "num_thresholds", "num_features"]

/-- Names the body of `initialize_results_dict` reads from the enclosing
module scope rather than from its own parameters — in particular `device` in
`.to(device)` at lines 36 and 40. -/
def initialize_results_dict_free_names : List String :=
  ["chess_utils", "torch", "device"]

/-- Line 169: the call `initialize_results_dict(custom_functions,
len(thresholds_T111))` passes two positional arguments. -/
def initialize_results_dict_call_arity : ℕ := 2

/-- Python call binding for a function whose parameters are all required and
positional: the call binds iff the argument count equals the parameter
count; otherwise a `TypeError` is raised before the body runs. -/
def pythonBindOk (nParams nArgs : ℕ) : Bool := nArgs == nParams

inductive RunError where
  | assertionFailed : RunError
  | initCallTypeError : RunError
deriving DecidableEq

/-- Lines 129-206, the control flow of `aggregate_statistics`.  `num_pgn`
stands for `len(pgn_strings)` of the loaded dataset.  Line 159 asserts
`len(pgn_strings) >= n_inputs`; line 160 asserts
`n_inputs % batch_size == 0`; line 169 then calls `initialize_results_dict`
with two positional arguments.  Only if that call bound would the batch
loops (lines 171-203) and the final `pickle.dump` (line 205) run; since the
function requires three arguments, no run reaches them, so they are not
modelled past this point. -/
def aggregate_statistics (num_pgn n_inputs batch_size : ℕ) : Except RunError Unit :=
  if ¬ (n_inputs ≤ num_pgn) then Except.error RunError.assertionFailed
  else if ¬ (n_inputs % batch_size = 0) then Except.error RunError.assertionFailed
  else if pythonBindOk initialize_results_dict_params.length
      initialize_results_dict_call_arity then Except.ok ()
  else Except.error RunError.initCallTypeError

/-- **C2** (latent bug in result initialization): `initialize_results_dict`
is defined with three required parameters but the call at line 169 passes
two, so the call never binds; the body moreover reads the free name `device`,
which is not among the parameters.  Consequently every run of
`aggregate_statistics` fails at this call — after the line 159-160
assertions but before any batch is processed: the run model never returns
`ok`, and whenever the preconditions pass, the outcome is precisely the
failed `initialize_results_dict` call. -/
theorem C2_latent_init_bug :
    initialize_results_dict_params.length = 3 ∧
    initialize_results_dict_call_arity = 2 ∧
    pythonBindOk initialize_results_dict_params.length
      initialize_results_dict_call_arity = false ∧
    "device" ∈ initialize_results_dict_free_names ∧
    "device" ∉ initialize_results_dict_params ∧
    (∀ num_pgn n_inputs batch_size : ℕ,
      aggregate_statistics num_pgn n_inputs batch_size ≠ Except.ok ()) ∧
    (∀ num_pgn n_inputs batch_size : ℕ,
      n_inputs ≤ num_pgn → n_inputs % batch_size = 0 →
        aggregate_statistics num_pgn n_inputs batch_size =
          Except.error RunError.initCallTypeError) := by
  refine ⟨rfl, rfl, rfl, by decide, by decide, ?_, ?_⟩
  · intro np ni bs
    unfold aggregate_statistics
    by_cases h1 : ni ≤ np
    · by_cases h2 : ni % bs = 0
      · simp [h1, h2, pythonBindOk, initialize_results_dict_params,
          initialize_results_dict_call_arity]
      · simp [h1, h2]
    · simp [h1]
  · intro np ni bs h1 h2
    unfold aggregate_statistics
    simp [h1, h2, pythonBindOk, initialize_results_dict_params,
      initialize_results_dict_call_arity]

theorem C2_latent_init_bug_witness :
    ((100 : ℕ) ≤ 100 ∧ (100 : ℕ) % 10 = 0) ∧
    aggregate_statistics 100 100 10 = Except.error RunError.initCallTypeError :=
  ⟨⟨by decide, by decide⟩,
    C2_latent_init_bug.2.2.2.2.2.2 100 100 10 (by decide) (by decide)⟩

/-- **C8** (fail-fast preconditions): a run stops with an assertion failure
— before the `initialize_results_dict` call, the batch loops, and any result
writing, all of which come later in the model's control flow — exactly when
`n_inputs` exceeds the number of game strings or `n_inputs` is not evenly
divisible by `batch_size`; when both preconditions hold, the assertions do
not fire. -/
theorem C8_fail_fast (num_pgn n_inputs batch_size : ℕ) :
    aggregate_statistics num_pgn n_inputs batch_size =
        Except.error RunError.assertionFailed ↔
      ¬ (n_inputs ≤ num_pgn ∧ n_inputs % batch_size = 0) := by
  unfold aggregate_statistics
  by_cases h1 : n_inputs ≤ num_pgn
  · by_cases h2 : n_inputs % batch_size = 0
    · simp [h1, h2, pythonBindOk, initialize_results_dict_params,
        initialize_results_dict_call_arity]
    · simp [h1, h2]
  · simp [h1]

-- ### The feature sub-batch loop (lines 162-203)

/-- Line 163: `num_feature_iters = num_features // feature_batch_size`
(floor division). -/
def num_feature_iters (num_features feature_batch_size : ℕ) : ℕ :=
  num_features / feature_batch_size

/-- Line 184: `f_start = feature * feature_batch_size`. -/
def loop_f_start (feature_batch_size i : ℕ) : ℕ := i * feature_batch_size

/-- Line 185: `f_end = min((feature + 1) * feature_batch_size, num_features)`. -/
def loop_f_end (num_features feature_batch_size i : ℕ) : ℕ :=
  min ((i + 1) * feature_batch_size) num_features

/-- Whether some iteration `i` of `for feature in range(num_feature_iters)`
(line 183) accumulates statistics for global feature index `g`, i.e. whether
`g` falls in that iteration's slice `[f_start, f_end)`. -/
def featureCovered (num_features feature_batch_size g : ℕ) : Bool :=
  decide (∃ i < num_feature_iters num_features feature_batch_size,
    loop_f_start feature_batch_size i ≤ g ∧
      g < loop_f_end num_features feature_batch_size i)

/-- **C3** fails on the code: with 25 total features and feature sub-batch
size 10 the inner loop is `range(25 // 10) = range(2)`, covering only
features 0-19; features 20-24 are never accumulated by any iteration, even
though line 185's `min((feature + 1) * feature_batch_size, num_features)`
only makes sense for an intended short final sub-batch. -/
theorem C3_tail_features_skipped :
    num_feature_iters 25 10 = 2 ∧
    featureCovered 25 10 0 = true ∧
    featureCovered 25 10 19 = true ∧
    featureCovered 25 10 20 = false ∧
    featureCovered 25 10 24 = false := by
  refine ⟨rfl, ?_, ?_, ?_, ?_⟩ <;> decide

-- ### Object-level model of `initialize_results_dict` (lines 21-44)

/-- A tensor object: its shape and its contents (indexed by a multi-index). -/
structure PyTensor where
  shape : List ℕ
  val : List ℕ → ℚ

/-- The heap of tensor objects: object identity is the position in an
append-only allocation list. -/
abbrev Store := List PyTensor

def defaultTensor : PyTensor := ⟨[], fun _ => 0⟩

/-- Allocate a fresh tensor object, returning the new store and the object's
identity. -/
def alloc (s : Store) (t : PyTensor) : Store × ℕ := (s ++ [t], s.length)

/-- `torch.zeros(shape)` (`.to(device)` keeps the modelled value). -/
def zerosTensor (shape : List ℕ) : PyTensor := ⟨shape, fun _ => 0⟩

/-- Dereference object identity `i`. -/
def readT (s : Store) (i : ℕ) : PyTensor := s.getD i defaultTensor

/-- `.clone()`: allocate a fresh object holding a copy of object `i`'s data. -/
def cloneT (s : Store) (i : ℕ) : Store × ℕ := alloc s (readT s i)

/-- An in-place `+=` on the tensor object `i`: only that object's contents
change. -/
def addInPlace (s : Store) (i : ℕ) (d : List ℕ → ℚ) : Store :=
  s.set i ⟨(readT s i).shape, fun idx => (readT s i).val idx + d idx⟩

/-- The configuration data `initialize_results_dict` consults per custom
function (lines 30-31): `chess_utils.config_lookup[name].num_rows/num_cols`
and `chess_utils.get_num_classes(config)`; the lookup lives in the external
`chess_utils` module, so we carry its results. -/
structure FuncConfig where
  name : String
  num_rows : ℕ
  num_cols : ℕ
  num_classes : ℕ
deriving DecidableEq

/-- The object identities stored under `results[name]["on"]`, `["off"]`,
`["on_count"]`, `["off_count"]`. -/
structure FuncEntry where
  on_id : ℕ
  off_id : ℕ
  on_count_id : ℕ
  off_count_id : ℕ
deriving DecidableEq

/-- Loop body of `initialize_results_dict` (lines 28-42) for one custom
function: allocate the zero `on` tracker of shape `(num_thresholds,
num_features, num_rows, num_cols, num_classes)`, clone it for `off`,
allocate the zero `(num_thresholds, num_features)` counter, clone it for
`off_count`. -/
def initOneFunction (s : Store) (cfg : FuncConfig)
    (num_thresholds num_features : ℕ) : Store × FuncEntry :=
  let a1 := alloc s (zerosTensor
    [num_thresholds, num_features, cfg.num_rows, cfg.num_cols, cfg.num_classes])
  let a2 := cloneT a1.1 a1.2
  let a3 := alloc a2.1 (zerosTensor [num_thresholds, num_features])
  let a4 := cloneT a3.1 a3.2
  (a4.1, ⟨a1.2, a2.2, a3.2, a4.2⟩)

/-- Lines 21-44, `initialize_results_dict` as defined (with all three
parameters): run the per-function allocation over the custom-function list;
the returned association list is the results dict, pairing each function
with its four tensor objects. -/
def initialize_results_dict (s : Store) (cfgs : List FuncConfig)
    (num_thresholds num_features : ℕ) : Store × List (FuncConfig × FuncEntry) :=
  match cfgs with
  | [] => (s, [])
  | cfg :: rest =>
    let a := initOneFunction s cfg num_thresholds num_features
    let b := initialize_results_dict a.1 rest num_thresholds num_features
    (b.1, (cfg, a.2) :: b.2)

theorem readT_append_offset (s : Store) (l : List PyTensor) (k : ℕ) :
    readT (s ++ l) (s.length + k) = l.getD k defaultTensor := by
  unfold readT
  rw [List.getD_eq_getElem?_getD, List.getD_eq_getElem?_getD,
    List.getElem?_append_right (Nat.le_add_right s.length k),
    Nat.add_sub_cancel_left]

theorem readT_append_left (s ext : Store) (i : ℕ) (h : i < s.length) :
    readT (s ++ ext) i = readT s i := by
  unfold readT
  rw [List.getD_eq_getElem?_getD, List.getD_eq_getElem?_getD,
    List.getElem?_append_left h]

theorem readT_addInPlace_ne (s : Store) (i j : ℕ) (d : List ℕ → ℚ)
    (h : i ≠ j) : readT (addInPlace s i d) j = readT s j := by
  unfold readT addInPlace
  rw [List.getD_eq_getElem?_getD, List.getD_eq_getElem?_getD,
    List.getElem?_set_ne h]

theorem readT_append_cons (s : Store) (t : PyTensor) (rest : List PyTensor) :
    readT (s ++ t :: rest) s.length = t := by
  have h := readT_append_offset s (t :: rest) 0
  simpa using h

theorem initOneFunction_eq (s : Store) (cfg : FuncConfig) (T F : ℕ) :
    initOneFunction s cfg T F =
      (s ++ [zerosTensor [T, F, cfg.num_rows, cfg.num_cols, cfg.num_classes],
             zerosTensor [T, F, cfg.num_rows, cfg.num_cols, cfg.num_classes],
             zerosTensor [T, F], zerosTensor [T, F]],
       ⟨s.length, s.length + 1, s.length + 2, s.length + 3⟩) := by
  simp [initOneFunction, cloneT, alloc, readT_append_cons, List.append_assoc]
  rw [readT_append_offset]
  rfl

theorem initialize_results_dict_cons (s : Store) (cfg : FuncConfig)
    (rest : List FuncConfig) (T F : ℕ) :
    initialize_results_dict s (cfg :: rest) T F =
      ((initialize_results_dict (initOneFunction s cfg T F).1 rest T F).1,
       (cfg, (initOneFunction s cfg T F).2) ::
         (initialize_results_dict (initOneFunction s cfg T F).1 rest T F).2) := rfl

theorem initialize_results_dict_store_extends (cfgs : List FuncConfig)
    (s : Store) (T F : ℕ) :
    ∃ ext, (initialize_results_dict s cfgs T F).1 = s ++ ext := by
  induction cfgs generalizing s with
  | nil => exact ⟨[], by simp [initialize_results_dict]⟩
  | cons cfg rest ih =>
    obtain ⟨ext, hext⟩ := ih (initOneFunction s cfg T F).1
    refine ⟨[zerosTensor [T, F, cfg.num_rows, cfg.num_cols, cfg.num_classes],
             zerosTensor [T, F, cfg.num_rows, cfg.num_cols, cfg.num_classes],
             zerosTensor [T, F], zerosTensor [T, F]] ++ ext, ?_⟩
    rw [initialize_results_dict_cons]
    show (initialize_results_dict (initOneFunction s cfg T F).1 rest T F).1 = _
    rw [hext, initOneFunction_eq]
    simp [List.append_assoc]

/-- **C10**: `initialize_results_dict` (as defined, with all three
arguments) returns, for each attribute function, four zero tensors — `on`
and `off` of shape `(num_thresholds, num_features, rows, cols, classes)`,
`on_count` and `off_count` of shape `(num_thresholds, num_features)` — and
within each pair the two tensors are distinct heap objects, so an in-place
`+=` on `on` leaves `off` unchanged and one on `on_count` leaves
`off_count` unchanged. -/
theorem C10_initialize_results_dict (s : Store) (cfgs : List FuncConfig)
    (T F : ℕ) (hT : 0 < T) (hF : 0 < F) (cfg : FuncConfig) (e : FuncEntry)
    (hmem : (cfg, e) ∈ (initialize_results_dict s cfgs T F).2) :
    readT (initialize_results_dict s cfgs T F).1 e.on_id =
        zerosTensor [T, F, cfg.num_rows, cfg.num_cols, cfg.num_classes] ∧
    readT (initialize_results_dict s cfgs T F).1 e.off_id =
        zerosTensor [T, F, cfg.num_rows, cfg.num_cols, cfg.num_classes] ∧
    readT (initialize_results_dict s cfgs T F).1 e.on_count_id =
        zerosTensor [T, F] ∧
    readT (initialize_results_dict s cfgs T F).1 e.off_count_id =
        zerosTensor [T, F] ∧
    e.on_id ≠ e.off_id ∧
    e.on_count_id ≠ e.off_count_id ∧
    (∀ d, readT (addInPlace (initialize_results_dict s cfgs T F).1 e.on_id d)
        e.off_id = readT (initialize_results_dict s cfgs T F).1 e.off_id) ∧
    (∀ d, readT (addInPlace (initialize_results_dict s cfgs T F).1 e.on_count_id d)
        e.off_count_id =
      readT (initialize_results_dict s cfgs T F).1 e.off_count_id) := by
  induction cfgs generalizing s with
  | nil => simp [initialize_results_dict] at hmem
  | cons c rest ih =>
    rw [initialize_results_dict_cons] at hmem ⊢
    rcases List.mem_cons.mp hmem with heq | htail
    · injection heq with h1 h2
      subst h1
      subst h2
      simp only [initOneFunction_eq]
      obtain ⟨ext, hext⟩ := initialize_results_dict_store_extends rest
        (s ++ [zerosTensor [T, F, cfg.num_rows, cfg.num_cols, cfg.num_classes],
               zerosTensor [T, F, cfg.num_rows, cfg.num_cols, cfg.num_classes],
               zerosTensor [T, F], zerosTensor [T, F]]) T F
      rw [hext]
      have hr : ∀ k < 4, readT ((s ++
          [zerosTensor [T, F, cfg.num_rows, cfg.num_cols, cfg.num_classes],
           zerosTensor [T, F, cfg.num_rows, cfg.num_cols, cfg.num_classes],
           zerosTensor [T, F], zerosTensor [T, F]]) ++ ext) (s.length + k) =
          [zerosTensor [T, F, cfg.num_rows, cfg.num_cols, cfg.num_classes],
           zerosTensor [T, F, cfg.num_rows, cfg.num_cols, cfg.num_classes],
           zerosTensor [T, F], zerosTensor [T, F]].getD k defaultTensor := by
        intro k hk
        rw [readT_append_left _ _ _ (by simp; omega)]
        exact readT_append_offset s _ k
      have h0 := hr 0 (by omega)
      have h1 := hr 1 (by omega)
      have h2 := hr 2 (by omega)
      have h3 := hr 3 (by omega)
      simp only [Nat.add_zero] at h0
      refine ⟨h0, h1, h2, h3, by omega, by omega, ?_, ?_⟩
      · intro d
        rw [readT_addInPlace_ne _ _ _ _ (by omega)]
      · intro d
        rw [readT_addInPlace_ne _ _ _ _ (by omega)]
    · exact ih (initOneFunction s c T F).1 htail

theorem C10_initialize_results_dict_witness :
    ((0 : ℕ) < 10 ∧ (0 : ℕ) < 4 ∧
      ((⟨"board_to_piece_state", 8, 8, 13⟩, ⟨0, 1, 2, 3⟩) ∈
        (initialize_results_dict [] [⟨"board_to_piece_state", 8, 8, 13⟩] 10 4).2)) ∧
    (readT (initialize_results_dict [] [⟨"board_to_piece_state", 8, 8, 13⟩] 10 4).1 0 =
        zerosTensor [10, 4, 8, 8, 13] ∧
      readT (initialize_results_dict [] [⟨"board_to_piece_state", 8, 8, 13⟩] 10 4).1 1 =
        zerosTensor [10, 4, 8, 8, 13] ∧
      readT (initialize_results_dict [] [⟨"board_to_piece_state", 8, 8, 13⟩] 10 4).1 2 =
        zerosTensor [10, 4] ∧
      readT (initialize_results_dict [] [⟨"board_to_piece_state", 8, 8, 13⟩] 10 4).1 3 =
        zerosTensor [10, 4] ∧
      (0 : ℕ) ≠ 1 ∧
      (2 : ℕ) ≠ 3 ∧
      (∀ d, readT (addInPlace
          (initialize_results_dict [] [⟨"board_to_piece_state", 8, 8, 13⟩] 10 4).1 0 d) 1 =
        readT (initialize_results_dict [] [⟨"board_to_piece_state", 8, 8, 13⟩] 10 4).1 1) ∧
      (∀ d, readT (addInPlace
          (initialize_results_dict [] [⟨"board_to_piece_state", 8, 8, 13⟩] 10 4).1 2 d) 3 =
        readT (initialize_results_dict [] [⟨"board_to_piece_state", 8, 8, 13⟩] 10 4).1 3)) :=
  ⟨⟨by decide, by decide, by decide⟩,
    C10_initialize_results_dict [] [⟨"board_to_piece_state", 8, 8, 13⟩] 10 4
      (by decide) (by decide) ⟨"board_to_piece_state", 8, 8, 13⟩ ⟨0, 1, 2, 3⟩
      (by decide)⟩
